import Mathlib

/-!
Verification of the `job-search` repository (Rust: `src/db.rs`, `src/main.rs`)
against its natural-language specification.

The development shallowly embeds the program:
* the SQLite `jobs` table is a `List Job` in rowid (insertion) order;
* `Queries::{add_job, list_jobs, seach_jobs, remove_job}` (`db.rs`) become pure
  functions on that list; SQLite behaviours the code relies on (rowid
  assignment, `LIKE`, `ORDER BY` on a TEXT column) are modelled explicitly;
* the hand-rolled HTTP code in `main.rs` (header loop, response strings, the
  JSON bodies read and written) becomes pure string/list functions, with Rust
  panics (`unwrap`/`expect`/`panic!`) modelled as `Option.none`;
* `chrono` date parsing/formatting with the `%d-%m-%Y` format string is
  modelled by an executable parser and printer over a `Date` record.

Machine strings are `String` / `List Char`; Rust byte lengths (`String::len`,
`Vec::<u8>::len` on UTF-8 data) are the UTF-8 byte size of the `String`.
-/

/-- The `Job` struct (`src/job.rs`, used by `db.rs` and `main.rs`):
`id: i32, title: String, description: String, date: String`.
Ids are the SQLite rowids assigned on insert, hence nonnegative; they are
modelled as `Nat` (i32 overflow cannot occur in any behaviour studied here). -/
structure Job where
  id : Nat
  title : String
  description : String
  date : String
deriving DecidableEq, Repr

/-- UTF-8 byte length of a string: what Rust's `String::len()` (and
`Vec::<u8>::len()` of the string's bytes) returns. -/
def utf8Len (s : String) : Nat :=
  s.data.foldl (fun n c => n + c.utf8Size) 0

/-! ### Generic character/list utilities used by the embedding -/

/-- Numeric value of a decimal digit character. -/
def dVal (c : Char) : Nat := c.toNat - 48

/-- Value of a list of decimal digit characters, most significant first. -/
def digitsToNat (cs : List Char) : Nat :=
  cs.foldl (fun a c => a * 10 + dVal c) 0

/-- The decimal digit character for `d < 10`. -/
def digitChar (d : Nat) : Char := Char.ofNat (48 + d)

/-- Decimal rendering loop (fuel-bounded so that it is structural; `natChars`
supplies enough fuel for the recursion never to exhaust it). -/
def natCharsGo : Nat → Nat → List Char → List Char
  | 0, _, acc => acc
  | fuel + 1, n, acc =>
    if n < 10 then digitChar n :: acc
    else natCharsGo fuel (n / 10) (digitChar (n % 10) :: acc)

/-- Decimal rendering of a natural number, as Rust's `{}` formatting of an
unsigned integer produces it. -/
def natChars (n : Nat) : List Char :=
  natCharsGo (n + 1) n []

/-- Reference recursion for `natChars`, convenient for induction. -/
def natCharsW (n : Nat) : List Char :=
  if n < 10 then [digitChar n]
  else natCharsW (n / 10) ++ [digitChar (n % 10)]
decreasing_by exact Nat.div_lt_self (by omega) (by omega)

/-- Match a literal character sequence at the head of the input, returning the
remainder on success. -/
def expectChars : List Char → List Char → Option (List Char)
  | [], s => some s
  | _ :: _, [] => none
  | c :: cs, d :: ds => if c = d then expectChars cs ds else none

/-- `p` occurs at the head of `s`. -/
def headMatches (p s : List Char) : Bool :=
  (expectChars p s).isSome

/-- `needle` occurs as a contiguous subsequence of `hay`
(Rust `str::contains` on these inputs). -/
def containsSubL (needle : List Char) : List Char → Bool
  | [] => needle.isEmpty
  | c :: rest => headMatches needle (c :: rest) || containsSubL needle rest

/-- `needle` occurs as a substring of `hay`. -/
def containsSub (hay needle : String) : Bool :=
  containsSubL needle.data hay.data

/-! ### Dates: the `chrono` `%d-%m-%Y` format as the program uses it -/

/-- A calendar date as `chrono::NaiveDate` carries it: year (signed), month,
day. -/
structure Date where
  year : Int
  month : Nat
  day : Nat
deriving DecidableEq, Repr

/-- Gregorian leap year, as `chrono` implements it. -/
def isLeap (y : Int) : Bool :=
  y % 4 = 0 && (y % 100 ≠ 0 || y % 400 = 0)

/-- Days in a month of a given year. -/
def daysInMonth (y : Int) (m : Nat) : Nat :=
  if m = 2 then (if isLeap y then 29 else 28)
  else if m = 4 || m = 6 || m = 9 || m = 11 then 30
  else 31

/-- The date is a real calendar date (what makes `NaiveDate` construction
succeed). -/
def dateValid (d : Date) : Bool :=
  1 ≤ d.month && d.month ≤ 12 && 1 ≤ d.day && d.day ≤ daysInMonth d.year d.month

/-- Read one or two decimal digits (at least one), as `chrono` reads the
`%d` and `%m` numeric fields. -/
def parse2Dig : List Char → Option (Nat × List Char)
  | [] => none
  | [c] => if c.isDigit then some (dVal c, []) else none
  | c1 :: c2 :: rest =>
    if c1.isDigit then
      if c2.isDigit then some (dVal c1 * 10 + dVal c2, rest)
      else some (dVal c1, c2 :: rest)
    else none

/-- Read a nonempty all-digit tail as a number. -/
def parseNatEnd (cs : List Char) : Option Nat :=
  if cs ≠ [] ∧ cs.all Char.isDigit then some (digitsToNat cs) else none

/-- Read the `%Y` year field occupying the rest of the input: optional `-`
sign, then one or more digits. -/
def parseYearEnd : List Char → Option Int
  | [] => none
  | c :: rest =>
    if c = '-' then Option.map (fun n : Nat => -(n : Int)) (parseNatEnd rest)
    else Option.map (fun n : Nat => (n : Int)) (parseNatEnd (c :: rest))

/-- `chrono::NaiveDate::parse_from_str(s, "%d-%m-%Y")` as the program calls it
(`db.rs` line 145, `main.rs` lines 147 and 284): day (1–2 digits), literal `-`,
month (1–2 digits), literal `-`, year to end of input; the parsed fields must
form a real calendar date, and the whole input must be consumed. -/
def parseDateDMY (s : String) : Option Date :=
  match parse2Dig s.data with
  | none => none
  | some (d, rest) =>
    match rest with
    | '-' :: rest2 =>
      match parse2Dig rest2 with
      | none => none
      | some (m, rest3) =>
        match rest3 with
        | '-' :: rest4 =>
          match parseYearEnd rest4 with
          | none => none
          | some y =>
            let dt : Date := ⟨y, m, d⟩
            if dateValid dt then some dt else none
        | _ => none
    | _ => none

/-- Zero-pad a number to two digits, as `chrono`'s `%d` / `%m` print. -/
def pad2 (n : Nat) : List Char :=
  if n < 10 then '0' :: natChars n else natChars n

/-- Pad the year to at least four digits (sign first for negative years), as
`chrono`'s `%Y` prints. -/
def pad4Year (y : Int) : List Char :=
  let ds := natChars y.natAbs
  let padded := List.replicate (4 - ds.length) '0' ++ ds
  (if y < 0 then ['-'] else []) ++ padded

/-- `date.format("%d-%m-%Y").to_string()`: the canonical rendering the program
stores and compares. -/
def formatDMY (d : Date) : String :=
  String.mk (pad2 d.day ++ '-' :: pad2 d.month ++ '-' :: pad4Year d.year)

/-! ### The entity store (`db.rs`): the `jobs` table as a list in rowid order -/

/-- The rowid SQLite assigns to an `INSERT` without an explicit id into
`jobs(id INTEGER PRIMARY KEY, ...)` (`migrate_db`, `db.rs` lines 52–62): one
more than the largest rowid currently in use (the table has no
`AUTOINCREMENT`, so this is SQLite's documented choice; the near-overflow
random fallback is not modelled). -/
def nextId (db : List Job) : Nat :=
  db.foldl (fun m j => max m j.id) 0 + 1

/-- `Queries::add_job` (`db.rs` lines 83–91): `INSERT INTO jobs (title,
description, date) VALUES (?, ?, ?)` appends a row with the store-assigned
rowid. -/
def add_job (db : List Job) (title description date : String) : List Job :=
  db ++ [⟨nextId db, title, description, date⟩]

/-- `Queries::list_jobs` (`db.rs` lines 93–120): `SELECT id, title,
description, date FROM jobs` with no ORDER BY returns the rows in rowid
order. -/
def list_jobs (db : List Job) : List Job := db

/-- `Queries::remove_job` (`db.rs` lines 193–198): `DELETE FROM jobs WHERE
id = ?` (bound parameter); deletes every row with that id, no error when none
matches. -/
def remove_job (db : List Job) (id : Nat) : List Job :=
  db.filter (fun j => j.id ≠ id)

/-! ### The query builder (`Queries::seach_jobs`, `db.rs` lines 122–191)

The Rust code concatenates the raw filter values into SQL text:
`format!("title LIKE '%{}%'", title)` and similarly for `description`, and
`format!("date='{}'", formatted_date)` for the date. The functions below keep
both views of that text: `searchQueryStr` reproduces the query string exactly,
and `evalCond` gives SQLite's semantics of the generated condition text (valid
for filter values containing no single quote, for which the generated text
parses as the intended condition — an assumption the injection theorems probe
at the query-text level). -/

/-- ASCII lowercase used by SQLite's default `LIKE` (case-insensitive for
ASCII only). -/
def asciiLower (c : Char) : Char :=
  if 'A' ≤ c && c ≤ 'Z' then Char.ofNat (c.toNat + 32) else c

/-- SQLite `LIKE` matching loop: `%` matches any sequence, `_` any single
character, other characters match themselves up to ASCII case. Fuel-bounded so
that it is structural; every recursive call shortens `ps ++ ts`, so
`likeMatch` supplies enough fuel for the `0` arm never to be reached. -/
def likeMatchGo : Nat → List Char → List Char → Bool
  | 0, _, _ => false
  | fuel + 1, ps, ts =>
    match ps, ts with
    | [], [] => true
    | [], _ :: _ => false
    | '%' :: ps', ts =>
      likeMatchGo fuel ps' ts ||
        (match ts with
         | [] => false
         | _ :: ts' => likeMatchGo fuel ('%' :: ps') ts')
    | '_' :: _, [] => false
    | '_' :: ps', _ :: ts' => likeMatchGo fuel ps' ts'
    | _ :: _, [] => false
    | p :: ps', t :: ts' => (asciiLower p = asciiLower t) && likeMatchGo fuel ps' ts'

/-- SQLite `LIKE` pattern matching of a pattern against a text. -/
def likeMatch (ps ts : List Char) : Bool :=
  likeMatchGo (ps.length + ts.length + 1) ps ts

/-- One condition pushed onto the `args` vector of `seach_jobs`. -/
inductive Cond where
  | likeTitle (t : String)
  | likeDesc (d : String)
  | dateEq (v : String)
deriving DecidableEq, Repr

/-- The exact SQL text the code builds for a condition
(`db.rs` lines 133, 139, 150). -/
def renderCond : Cond → String
  | .likeTitle t => "title LIKE '%" ++ t ++ "%'"
  | .likeDesc d => "description LIKE '%" ++ d ++ "%'"
  | .dateEq v => "date='" ++ v ++ "'"

/-- The date-filter canonicalisation of `seach_jobs` (`db.rs` lines 143–155):
a nonempty date filter is parsed with `%d-%m-%Y` and re-rendered; on parse
failure the filter is dropped (the re-rendered string can never be empty, so
the code's emptiness re-check is equivalent to matching on the parse). -/
def dateCondArg : Option String → Option String
  | none => none
  | some s =>
    if s = "" then none
    else
      match parseDateDMY s with
      | some d => some (formatDMY d)
      | none => none

/-- The diagnostics `seach_jobs` prints to stderr while building the query
(`db.rs` line 152). -/
def searchDiags : Option String → List String
  | none => []
  | some s =>
    if s = "" then []
    else
      match parseDateDMY s with
      | some _ => []
      | none => ["Invalid date format. Please use the format dd-mm-yyyy."]

/-- The `args` vector of `seach_jobs` in push order: title condition (if the
filter is present and nonempty), then description, then the canonicalised
date. -/
def searchConds (title description date : Option String) : List Cond :=
  (match title with
   | some t => if t ≠ "" then [Cond.likeTitle t] else []
   | none => []) ++
  (match description with
   | some d => if d ≠ "" then [Cond.likeDesc d] else []
   | none => []) ++
  (match dateCondArg date with
   | some v => [Cond.dateEq v]
   | none => [])

/-- The full query string `seach_jobs` sends to SQLite
(`db.rs` lines 128, 157–162). -/
def searchQueryStr (title description date : Option String) : String :=
  let args := (searchConds title description date).map renderCond
  "SELECT id, title, description, date FROM jobs" ++
    (if args.length > 0 then " WHERE " ++ String.intercalate " AND " args
     else "") ++
    " ORDER BY date ASC"

/-- SQLite's evaluation of one generated condition on a row (for quote-free
filter values): `LIKE '%t%'` is `likeMatch` with the percent-wrapped pattern,
`date='v'` is TEXT equality. -/
def evalCond (j : Job) : Cond → Bool
  | .likeTitle t => likeMatch ('%' :: t.data ++ ['%']) j.title.data
  | .likeDesc d => likeMatch ('%' :: d.data ++ ['%']) j.description.data
  | .dateEq v => j.date == v

/-- Bytewise (memcmp) string comparison, the BINARY collation SQLite uses on
the TEXT `date` column; comparing code points is equivalent because UTF-8
preserves code-point order. -/
def strBytesLe : List Char → List Char → Bool
  | [], _ => true
  | _ :: _, [] => false
  | a :: as, b :: bs =>
    if a.toNat < b.toNat then true
    else if b.toNat < a.toNat then false
    else strBytesLe as bs

/-- `ORDER BY date ASC`: the row order relation on the stored date strings. -/
def dateLe (a b : Job) : Prop := strBytesLe a.date.data b.date.data = true

instance : DecidableRel dateLe := fun a b =>
  inferInstanceAs (Decidable (strBytesLe a.date.data b.date.data = true))

/-- `Queries::seach_jobs` (`db.rs` lines 122–191): rows satisfying every
generated condition, ordered by `ORDER BY date ASC` over the TEXT column
(modelled as a stable sort, SQLite's observed behaviour for this single-table
scan: equal dates stay in rowid order). -/
def seach_jobs (db : List Job) (title description date : Option String) :
    List Job :=
  List.insertionSort dateLe
    (db.filter (fun j => (searchConds title description date).all (evalCond j)))

/-! ### `format_date` (`main.rs` lines 280–293) -/

/-- `format_date`: `"today"` renders the current local date; any other input
must parse under `%d-%m-%Y` and is re-rendered canonically; a failed parse
panics (`none`). `Local::now()` is passed in as `today`. -/
def format_date (today : Date) (date : String) : Option String :=
  if date = "today" then some (formatDMY today)
  else
    match parseDateDMY date with
    | some d => some (formatDMY d)
    | none => none

/-! ### The connection handler's header loop (`handle_request`, `main.rs`
lines 104–140) -/

/-- One item of `BufReader::lines()`: a successfully read header line, or a
read error (which the loop only logs). -/
inductive LineRead where
  | ok (s : String)
  | err
deriving DecidableEq, Repr

/-- Rust `str::parse::<usize>()`: optional leading `+`, then one or more
decimal digits, value below `2^64` (anything else is `Err`). -/
def parseUsizeStr (s : String) : Option Nat :=
  let cs := match s.data with
    | '+' :: rest => rest
    | cs => cs
  if cs ≠ [] ∧ cs.all Char.isDigit then
    let n := digitsToNat cs
    if n < 2 ^ 64 then some n else none
  else none

/-- The remainder of `s` after the last occurrence of `sep` (`none` when `sep`
does not occur); occurrences starting further right take priority. -/
def afterLastOcc (sep : List Char) : List Char → Option (List Char)
  | [] => none
  | c :: cs =>
    match afterLastOcc sep cs with
    | some suf => some suf
    | none => expectChars sep (c :: cs)

/-- Rust `s.split(sep).last().unwrap()` for a nonempty separator: the text
after the last occurrence of `sep`, or all of `s` when `sep` does not occur. -/
def splitLast (sep s : String) : String :=
  match afterLastOcc sep.data s.data with
  | some suf => String.mk suf
  | none => s

/-- The header loop of `handle_request` (`main.rs` lines 106–129) over the
incoming line reads: stops at the first empty line (or end of input), logs and
skips read errors, extracts `Content-Length` by splitting and
`parse::<usize>().unwrap()` — a failed parse is a panic (`none`) — and collects
the header lines. Returns (collected lines, content length). -/
def headerLoop : List LineRead → List String → Nat →
    Option (List String × Nat)
  | [], acc, cl => some (acc.reverse, cl)
  | .err :: rest, acc, cl => headerLoop rest acc cl
  | .ok l :: rest, acc, cl =>
    if l = "" then some (acc.reverse, cl)
    else if headMatches ("Content-Length: ".data) l.data then
      match parseUsizeStr (splitLast "Content-Length: " l) with
      | none => none
      | some n => headerLoop rest (l :: acc) n
    else headerLoop rest (l :: acc) cl

/-- Header parsing for one connection, starting from the code's
`content_length = 0` default. -/
def parseHeaderBlock (ls : List LineRead) : Option (List String × Nat) :=
  headerLoop ls [] 0

/-! ### The responses `handle_request` writes (`main.rs` lines 142–261) -/

/-- The export format enum (`main.rs` lines 62–66). -/
inductive Format where
  | json
  | csv
deriving DecidableEq, Repr

/-- The content type the export route picks for a format
(`main.rs` lines 219–223). -/
def contentTypeOf : Format → String
  | .json => "application/json"
  | .csv => "text/csv"

/-- One response actually written by `handle_request`, by route. Static file
contents (`include_str!` of `static/index.html` after template substitution,
`static/styles.css`, `static/create.html`) and the export buffer are carried
as parameters: the claims below concern the response framing, not those
bytes. -/
inductive WrittenResponse where
  | index (content : String)
  | styles (content : String)
  | createPage (content : String)
  | createJob
  | deleteJob
  | exportOk (fmt : Format) (buf : String)
  | exportBadFormat
  | notFound
deriving DecidableEq, Repr

/-- The response body each route writes after the blank line (empty for the
`POST /delete/{id}` redirect). -/
def responseBody : WrittenResponse → String
  | .index content => content
  | .styles content => content
  | .createPage content => content
  | .createJob => "Job created successfully"
  | .deleteJob => ""
  | .exportOk _ buf => buf
  | .exportBadFormat => "Invalid format"
  | .notFound => "404 Not Found"

/-- The exact bytes each branch of `handle_request` writes to the stream
(`main.rs` lines 166–173, 176–181, 184–189, 203–208, 214, 247–253, 225–230,
255–260): the `format!` strings with `len()` (byte length) spliced in. -/
def responseBytes : WrittenResponse → String
  | .index content =>
    "HTTP/1.1 200 OK\r\nContent-Type: text/html\r\nContent-Length: " ++
      Nat.repr (utf8Len content) ++ "\r\n\r\n" ++ content
  | .styles content =>
    "HTTP/1.1 200 OK\r\nContent-Type: text/css\r\nContent-Length: " ++
      Nat.repr (utf8Len content) ++ "\r\n\r\n" ++ content
  | .createPage content =>
    "HTTP/1.1 200 OK\r\nContent-Type: text/html\r\nContent-Length: " ++
      Nat.repr (utf8Len content) ++ "\r\n\r\n" ++ content
  | .createJob =>
    "HTTP/1.1 200 OK\r\nContent-Type: text/plain\r\nContent-Length: " ++
      Nat.repr (utf8Len "Job created successfully") ++ "\r\n\r\n" ++
      "Job created successfully"
  | .deleteJob => "HTTP/1.1 303 See Other\r\nLocation: /\r\n\r\n"
  | .exportOk fmt buf =>
    "HTTP/1.1 200 OK\r\nContent-Type: " ++ contentTypeOf fmt ++
      "\r\nContent-Length: " ++ Nat.repr (utf8Len buf) ++ "\r\n\r\n" ++ buf
  | .exportBadFormat =>
    "HTTP/1.1 400 Bad Request\r\nContent-Type: text/text\r\nContent-Length: " ++
      Nat.repr (utf8Len "Invalid format") ++ "\r\n\r\n" ++ "Invalid format"
  | .notFound =>
    "HTTP/1.1 404 Not Found\r\nContent-Type: text/text\r\nContent-Length: " ++
      Nat.repr (utf8Len "404 Not Found") ++ "\r\n\r\n" ++ "404 Not Found"

/-- HTTP/1.1 response framing with a `Content-Type` header and a byte-accurate
`Content-Length` header: status line, the two headers separated by CRLF, a
blank line, then the body. -/
def framedResponse (status ct body : String) : String :=
  status ++ "\r\nContent-Type: " ++ ct ++ "\r\nContent-Length: " ++
    Nat.repr (utf8Len body) ++ "\r\n\r\n" ++ body

/-- Split on the first occurrence of `sep`, returning the text before and
after it. -/
def splitFirstSub (sep : List Char) : List Char → Option (List Char × List Char)
  | [] => none
  | c :: cs =>
    match expectChars sep (c :: cs) with
    | some suf => some ([], suf)
    | none =>
      match splitFirstSub sep cs with
      | some (pre, suf) => some (c :: pre, suf)
      | none => none

/-- Split a character list on every occurrence of a single character. -/
def splitOnChar (sep : Char) : List Char → List (List Char)
  | [] => [[]]
  | c :: cs =>
    let r := splitOnChar sep cs
    if c = sep then [] :: r
    else
      match r with
      | [] => [[c]]
      | h :: t => (c :: h) :: t

/-- UTF-8 byte length of a character list. -/
def utf8LenL (cs : List Char) : Nat :=
  cs.foldl (fun n c => n + c.utf8Size) 0

/-- Decider for the response property claimed by the spec: the bytes split at
the first blank line (CRLFCRLF) into a header block and a body; the CRLF-split
header block contains a `Content-Type` header and a `Content-Length` header
whose value is the byte length of the body. -/
def responseWellFormedB (resp : List Char) : Bool :=
  match splitFirstSub ('\r' :: '\n' :: '\r' :: '\n' :: []) resp with
  | none => false
  | some (head, body) =>
    let ls := splitOnChar '\n' head
    let ls := ls.map (fun l => if l.getLast? = some '\r' then l.dropLast else l)
    (ls.any (fun l => headMatches ("Content-Type: ".data) l)) &&
      (ls.any (fun l => l = "Content-Length: ".data ++ natChars (utf8LenL body)))

/-! ### JSON: what the program writes (`export_jobs_to_bytes`, `main.rs`
lines 339–359) and what it reads (`serde_json::from_str` into
`HashMap<String, String>`, `main.rs` lines 191, 217) -/

/-- The translation of a simple JSON string escape (after the backslash). -/
def escChar : Char → Option Char
  | '"' => some '"'
  | '\\' => some '\\'
  | '/' => some '/'
  | 'b' => some (Char.ofNat 8)
  | 'f' => some (Char.ofNat 12)
  | 'n' => some '\n'
  | 'r' => some '\r'
  | 't' => some '\t'
  | _ => none

/-- The character is an ASCII hexadecimal digit. -/
def isHexDig (c : Char) : Bool :=
  ('0' ≤ c && c ≤ '9') || ('a' ≤ c && c ≤ 'f') || ('A' ≤ c && c ≤ 'F')

/-- Numeric value of a hexadecimal digit character. -/
def hexVal (c : Char) : Nat :=
  if '0' ≤ c && c ≤ '9' then c.toNat - 48
  else if 'a' ≤ c && c ≤ 'f' then c.toNat - 87
  else if 'A' ≤ c && c ≤ 'F' then c.toNat - 55
  else 0

/-- JSON string-literal body (RFC 8259): characters after the opening quote up
to the closing quote, with `\"`, `\\`, `\/`, `\b`, `\f`, `\n`, `\r`, `\t` and
`\uXXXX` escapes decoded and raw control characters (below 0x20) rejected
(surrogate-pair recombination is not modelled). Returns the decoded content
and the input after the closing quote. -/
def parseStrGo : Nat → List Char → Option (List Char × List Char)
  | 0, _ => none
  | _ + 1, [] => none
  | fuel + 1, c :: rest =>
    if c = '"' then some ([], rest)
    else if c = '\\' then
      match rest with
      | [] => none
      | e :: rest2 =>
        if e = 'u' then
          match rest2 with
          | h1 :: h2 :: h3 :: h4 :: rest3 =>
            if isHexDig h1 && isHexDig h2 && isHexDig h3 && isHexDig h4
            then
              (parseStrGo fuel rest3).map (fun p =>
                (Char.ofNat
                    (((hexVal h1 * 16 + hexVal h2) * 16 + hexVal h3) * 16 +
                      hexVal h4) :: p.1, p.2))
            else none
          | _ => none
        else
          match escChar e with
          | some ec => (parseStrGo fuel rest2).map (fun p => (ec :: p.1, p.2))
          | none => none
    else if c.toNat < 32 then none
    else (parseStrGo fuel rest).map (fun p => (c :: p.1, p.2))

/-- JSON string-literal body, starting after the opening quote (the fuel is
always sufficient: every recursive call of `parseStrGo` consumes input). -/
def parseStrBody (cs : List Char) : Option (List Char × List Char) :=
  parseStrGo (cs.length + 1) cs

/-- Read a nonempty run of decimal digits as a number (the JSON integer form
the exporter emits for `id`). -/
def readNat (cs : List Char) : Option (Nat × List Char) :=
  let ds := cs.takeWhile Char.isDigit
  if ds = [] then none else some (digitsToNat ds, cs.dropWhile Char.isDigit)

/-- The one-line JSON object `export_jobs_to_bytes` (and identically
`export_jobs`) formats for a record (`main.rs` lines 347–350):
`{"id": N, "title": "T", "description": "D", "date": "DT"}` with the raw
field strings spliced in unescaped. -/
def jobLine (j : Job) : List Char :=
  "\x7b\"id\": ".data ++ natChars j.id ++
    ", \"title\": \"".data ++ j.title.data ++
    "\", \"description\": \"".data ++ j.description.data ++
    "\", \"date\": \"".data ++ j.date.data ++ "\"\x7d".data

/-- The object lines of the JSON export with the loop's separator logic
(`main.rs` lines 346–357): every line but the last is followed by a comma;
each `writeln!` appends a newline. -/
def jsonBodyLines : List Job → List Char
  | [] => []
  | [j] => jobLine j ++ ['\n']
  | j :: rest => jobLine j ++ ',' :: '\n' :: jsonBodyLines rest

/-- The `Format::Json` arm of `export_jobs_to_bytes` (`main.rs` lines
343–359): `[` newline, the object lines, `]` newline. (`export_jobs`,
lines 297–319, writes the same bytes to a file; the `Format::Csv` arms are
not modelled.) -/
def export_json_bytes (jobs : List Job) : List Char :=
  "[\n".data ++ jsonBodyLines jobs ++ "]\n".data

/-- Read one job object in exactly the shape the exporter emits, with the
string and number fields read by the JSON lexical rules
(`parseStrBody`, `readNat`). Returns the job and the remaining input. -/
def readJobObj (cs : List Char) : Option (Job × List Char) := do
  let cs ← expectChars "\x7b\"id\": ".data cs
  let (idv, cs) ← readNat cs
  let cs ← expectChars ", \"title\": \"".data cs
  let (t, cs) ← parseStrBody cs
  let cs ← expectChars ", \"description\": \"".data cs
  let (d, cs) ← parseStrBody cs
  let cs ← expectChars ", \"date\": \"".data cs
  let (dt, cs) ← parseStrBody cs
  let cs ← expectChars ['\x7d'] cs
  some (⟨idv, String.mk t, String.mk d, String.mk dt⟩, cs)

/-- Read the object list after the first object: either `,` newline and
another object, or newline `]` newline ending the input. `fuel` bounds the
recursion (any value above the number of remaining objects is enough). -/
def readJobsRest : Nat → List Char → Option (List Job)
  | 0, _ => none
  | fuel + 1, cs =>
    match expectChars (',' :: '\n' :: []) cs with
    | some cs' => do
      let (j, cs'') ← readJobObj cs'
      let js ← readJobsRest fuel cs''
      some (j :: js)
    | none => do
      let cs' ← expectChars ('\n' :: ']' :: '\n' :: []) cs
      if cs' = [] then some [] else none

/-- Acceptor for the claimed export shape: a JSON array (`[` newline, objects
one per line separated by `,` newline, `]` newline) of objects with keys
`id`, `title`, `description`, `date` in that order, whose string fields obey
the JSON string-literal grammar and whose `id` is a decimal integer.
Acceptance implies the input is valid JSON; the returned list is the decoded
records in array order. -/
def readJobsJson (cs : List Char) : Option (List Job) :=
  match expectChars "[\n".data cs with
  | none => none
  | some cs1 =>
    match expectChars (']' :: '\n' :: []) cs1 with
    | some rest => if rest = [] then some [] else none
    | none => do
      let (j, cs2) ← readJobObj cs1
      let js ← readJobsRest (cs2.length + 1) cs2
      some (j :: js)

/-- A character that the exporter may splice into a JSON string literal
verbatim without breaking it: not a quote, not a backslash, not a control
character. -/
def jsonSafeChar (c : Char) : Bool :=
  c ≠ '"' && c ≠ '\\' && 32 ≤ c.toNat

/-- All characters of the string are JSON-safe. -/
def jsonSafeStr (s : String) : Bool :=
  s.data.all jsonSafeChar

/-! ### The `POST /create_job` body (`main.rs` lines 190–208) -/

/-- JSON whitespace skipping. -/
def skipWs (cs : List Char) : List Char :=
  cs.dropWhile (fun c => c = ' ' || c = '\n' || c = '\t' || c = '\r')

/-- A JSON string literal including its opening quote. -/
def readJString (cs : List Char) : Option (List Char × List Char) :=
  match cs with
  | '"' :: rest => parseStrBody rest
  | _ => none

/-- Members of a flat string-to-string JSON object after the opening brace,
first member onward: `"key" : "value"` pairs separated by commas, closed by
`}` with only whitespace allowed after it. Non-string values make the
deserialization into `HashMap<String, String>` fail. `fuel` bounds the
recursion. -/
def readMembers : Nat → List Char → List (String × String) →
    Option (List (String × String))
  | 0, _, _ => none
  | fuel + 1, cs, acc => do
    let (k, cs) ← readJString (skipWs cs)
    let cs := skipWs cs
    match cs with
    | ':' :: cs => do
      let (v, cs2) ← readJString (skipWs cs)
      let cs2 := skipWs cs2
      match cs2 with
      | ',' :: cs3 => readMembers fuel cs3 (acc ++ [(String.mk k, String.mk v)])
      | c :: cs3 =>
        if c = '\x7d' then
          if skipWs cs3 = [] then some (acc ++ [(String.mk k, String.mk v)])
          else none
        else none
      | [] => none
    | _ => none

/-- `serde_json::from_str::<HashMap<String, String>>(&body)` as an association
list in member order: the body must be one JSON object whose values are all
strings, with nothing but whitespace around it. `none` is a deserialization
error (which the code turns into a panic by `unwrap`). -/
def parseFlatObj (s : String) : Option (List (String × String)) :=
  match skipWs s.data with
  | c :: cs =>
    if c = '\x7b' then
      match skipWs cs with
      | d :: cs' =>
        if d = '\x7d' then
          if skipWs cs' = [] then some [] else none
        else readMembers (cs.length + 1) (skipWs cs) []
      | [] => none
    else none
  | [] => none

/-- `HashMap` lookup with serde's duplicate-key behaviour (the last member
wins). -/
def hmGet (m : List (String × String)) (k : String) : Option String :=
  ((m.filter (fun p => p.1 = k)).getLast?).map (fun p => p.2)

/-- The `POST /create_job` branch of `handle_request` (`main.rs` lines
190–208): deserialize the body, `unwrap` (panic = `none`) on error, take the
`title` and `description` keys, `unwrap` on absence, insert the job dated
`format_date("today")`, and answer with the fixed confirmation body. -/
def handle_create_job (today : Date) (db : List Job) (body : String) :
    Option (List Job × WrittenResponse) :=
  match parseFlatObj body with
  | none => none
  | some kvs =>
    match hmGet kvs "title", hmGet kvs "description" with
    | some t, some d =>
      some (add_job db t d (formatDMY today), WrittenResponse.createJob)
    | _, _ => none

/-! ### Operation traces -/

/-- A store-level operation sequence (the contract of §4.1: `add` / `remove`,
no `clear`). -/
inductive StoreOp where
  | add (title description date : String)
  | remove (id : Nat)
deriving DecidableEq, Repr

/-- Run a sequence of store operations from a state. -/
def runStoreFrom (db : List Job) : List StoreOp → List Job
  | [] => db
  | .add t d dt :: rest => runStoreFrom (add_job db t d dt) rest
  | .remove i :: rest => runStoreFrom (remove_job db i) rest

/-- Run a sequence of store operations from the empty store. -/
def runStore (ops : List StoreOp) : List Job :=
  runStoreFrom [] ops

/-- One record-creating or record-deleting entry point of the program, paired
with the local date `Local::now()` yields while it runs:
* `cliAdd` is the CLI `add` subcommand (`main.rs` lines 383–398), which routes
  the optional date argument through `format_date`;
* `webCreate` is `POST /create_job` (`main.rs` lines 190–208), which always
  stores `format_date("today")`;
* `webDelete` is `POST /delete/{id}` (`main.rs` lines 209–215). -/
inductive SysOp where
  | cliAdd (title description : String) (date : Option String)
  | webCreate (title description : String)
  | webDelete (id : Nat)
deriving DecidableEq, Repr

/-- One entry-point step; `none` is the panic `format_date` raises on a
malformed CLI date. -/
def stepSys (today : Date) (db : List Job) : SysOp → Option (List Job)
  | .cliAdd t d none => some (add_job db t d (formatDMY today))
  | .cliAdd t d (some s) =>
    (format_date today s).map (fun ds => add_job db t d ds)
  | .webCreate t d => some (add_job db t d (formatDMY today))
  | .webDelete i => some (remove_job db i)

/-- Run entry-point operations (each with its own current date) from a
state. -/
def runSysFrom (db : List Job) : List (Date × SysOp) → Option (List Job)
  | [] => some db
  | (td, op) :: rest =>
    match stepSys td db op with
    | none => none
    | some db' => runSysFrom db' rest

/-- Run entry-point operations from the empty store. -/
def runSys (tr : List (Date × SysOp)) : Option (List Job) :=
  runSysFrom [] tr

/-- The date-rendering step of the `GET /` branch (`main.rs` lines 143–147):
the loop over `queries.list_jobs()` runs
`NaiveDate::parse_from_str(&job.date, "%d-%m-%Y").unwrap()` on every listed
job; `none` is the panic of a failed `unwrap`. -/
def renderDates : List Job → Option (List Date)
  | [] => some []
  | j :: js =>
    match parseDateDMY j.date, renderDates js with
    | some d, some ds => some (d :: ds)
    | _, _ => none

/-- The input that remains after reading one exported object: either the
separator and another object, or the array close. -/
def restInput : List Job → List Char
  | [] => '\n' :: ']' :: '\n' :: []
  | j :: js => ',' :: '\n' :: (jobLine j ++ restInput js)

/-- The fields of every record are JSON-safe: no quote, no backslash, no
control character. -/
def jobJsonSafe (j : Job) : Bool :=
  jsonSafeStr j.title && jsonSafeStr j.description && jsonSafeStr j.date

/-- Strict calendar-date order (year, then month, then day): the date
semantics the specification's ordering claim refers to. -/
def calLtB (a b : Date) : Bool :=
  a.year < b.year ||
    (a.year = b.year &&
      (a.month < b.month || (a.month = b.month && a.day < b.day)))

/-- The claim's intended result order on rows: the stored date strings,
compared as calendar dates under the program's own `%d-%m-%Y` parse. -/
def calJobLeB (a b : Job) : Bool :=
  match parseDateDMY a.date, parseDateDMY b.date with
  | some x, some y => calLtB x y || x == y
  | _, _ => false

/-! ### Order properties of the `ORDER BY date ASC` relation -/

theorem strBytesLe_refl (as : List Char) : strBytesLe as as = true := by
  induction as with
  | nil => rfl
  | cons a as ih => simp [strBytesLe, ih]

theorem strBytesLe_total (as bs : List Char) :
    strBytesLe as bs = true ∨ strBytesLe bs as = true := by
  induction as generalizing bs with
  | nil => left; rfl
  | cons a as ih =>
    cases bs with
    | nil => right; rfl
    | cons b bs =>
      rcases Nat.lt_trichotomy a.toNat b.toNat with h | h | h
      · left; simp [strBytesLe, h]
      · rcases ih bs with h' | h' <;> [left; right] <;>
          simp [strBytesLe, h, h']
      · right; simp [strBytesLe, h]

theorem strBytesLe_trans {as bs cs : List Char}
    (h1 : strBytesLe as bs = true) (h2 : strBytesLe bs cs = true) :
    strBytesLe as cs = true := by
  induction as generalizing bs cs with
  | nil => rfl
  | cons a as ih =>
    cases bs with
    | nil => simp [strBytesLe] at h1
    | cons b bs =>
      cases cs with
      | nil => simp [strBytesLe] at h2
      | cons c cs =>
        simp only [strBytesLe] at h1 h2 ⊢
        split_ifs at h1 h2 ⊢ <;>
          first
            | rfl
            | (exact ih h1 h2)
            | omega

/-! ### Stability of the modelled `ORDER BY`: filtering the ties of a sort -/

theorem filter_orderedInsert_of_neg {α : Type} (r : α → α → Prop)
    [DecidableRel r] (p : α → Bool) (x : α) (l : List α) (hx : p x = false) :
    (List.orderedInsert r x l).filter p = l.filter p := by
  induction l with
  | nil => simp [List.orderedInsert, List.filter, hx]
  | cons b bs ih =>
    by_cases hr : r x b
    · simp [List.orderedInsert, hr, List.filter, hx]
    · cases hb : p b <;>
        simp [List.orderedInsert, hr, List.filter, hb, ih]

theorem filter_orderedInsert_of_pos {α : Type} (r : α → α → Prop)
    [DecidableRel r] (p : α → Bool) (x : α) (l : List α) (hx : p x = true)
    (h : ∀ b ∈ l, p b = true → r x b) :
    (List.orderedInsert r x l).filter p = x :: l.filter p := by
  induction l with
  | nil => simp [List.orderedInsert, List.filter, hx]
  | cons b bs ih =>
    by_cases hr : r x b
    · simp [List.orderedInsert, hr, List.filter, hx]
    · have hb : p b = false := by
        cases hb : p b
        · rfl
        · exact absurd (h b (List.mem_cons_self b bs) hb) hr
      have ih' := ih (fun c hc hpc => h c (List.mem_cons_of_mem b hc) hpc)
      simp [List.orderedInsert, hr, List.filter, hb, ih']

theorem filter_insertionSort {α : Type} (r : α → α → Prop) [DecidableRel r]
    (p : α → Bool) (l : List α)
    (h : ∀ a b, p a = true → p b = true → r a b) :
    (List.insertionSort r l).filter p = l.filter p := by
  induction l with
  | nil => rfl
  | cons x xs ih =>
    cases hx : p x
    · rw [List.insertionSort, filter_orderedInsert_of_neg r p x _ hx, ih]
      simp [List.filter, hx]
    · rw [List.insertionSort,
        filter_orderedInsert_of_pos r p x _ hx
          (fun b _ hpb => h x b hx hpb), ih]
      simp [List.filter, hx]

/-! ### Decimal rendering: `natChars` agrees with its reference recursion -/

theorem natCharsGo_succ_eq (fuel : Nat) :
    ∀ n acc, n < 10 ^ (fuel + 1) →
      natCharsGo (fuel + 1) n acc = natCharsW n ++ acc := by
  induction fuel with
  | zero =>
    intro n acc h
    have hn : n < 10 := by simpa using h
    rw [natCharsGo, natCharsW]
    simp [hn]
  | succ fuel ih =>
    intro n acc h
    by_cases hn : n < 10
    · rw [natCharsGo, natCharsW]
      simp [hn]
    · have hrec : n / 10 < 10 ^ (fuel + 1) := by
        rw [pow_succ] at h
        exact Nat.div_lt_of_lt_mul (by omega)
      rw [natCharsGo, if_neg hn, ih (n / 10) _ hrec]
      conv_rhs => rw [natCharsW, if_neg hn]
      rw [List.append_assoc]
      rfl

theorem natChars_eq_W (n : Nat) : natChars n = natCharsW n := by
  have h : n < 10 ^ (n + 1) :=
    lt_of_lt_of_le (Nat.lt_pow_self (by omega) n)
      (Nat.pow_le_pow_right (by omega) (Nat.le_succ n))
  rw [natChars, natCharsGo_succ_eq n n [] h, List.append_nil]

theorem digitChar_isDigit {d : Nat} (h : d < 10) :
    (digitChar d).isDigit = true := by
  interval_cases d <;> decide

theorem dVal_digitChar {d : Nat} (h : d < 10) : dVal (digitChar d) = d := by
  interval_cases d <;> decide

theorem natCharsW_all_digits (n : Nat) :
    ∀ c ∈ natCharsW n, c.isDigit = true := by
  induction n using Nat.strong_induction_on with
  | _ n ih =>
    by_cases hn : n < 10
    · rw [natCharsW, if_pos hn]
      simpa using digitChar_isDigit hn
    · rw [natCharsW, if_neg hn]
      intro c hc
      rcases List.mem_append.mp hc with hc | hc
      · exact ih (n / 10) (Nat.div_lt_self (by omega) (by omega)) c hc
      · simp only [List.mem_singleton] at hc
        subst hc
        exact digitChar_isDigit (Nat.mod_lt n (by omega))

theorem natCharsW_ne_nil (n : Nat) : natCharsW n ≠ [] := by
  rw [natCharsW]
  split <;> simp

theorem digitsToNat_append_cons (xs : List Char) (c : Char) :
    digitsToNat (xs ++ [c]) = digitsToNat xs * 10 + dVal c := by
  simp [digitsToNat, List.foldl_append]

theorem digitsToNat_natCharsW (n : Nat) : digitsToNat (natCharsW n) = n := by
  induction n using Nat.strong_induction_on with
  | _ n ih =>
    by_cases hn : n < 10
    · rw [natCharsW, if_pos hn]
      simp [digitsToNat, dVal_digitChar hn]
    · rw [natCharsW, if_neg hn, digitsToNat_append_cons,
        ih (n / 10) (Nat.div_lt_self (by omega) (by omega)),
        dVal_digitChar (Nat.mod_lt n (by omega))]
      omega

theorem natCharsW_of_lt_ten {n : Nat} (h : n < 10) :
    natCharsW n = [digitChar n] := by
  rw [natCharsW, if_pos h]

theorem natCharsW_of_two_digits {n : Nat} (h1 : 10 ≤ n) (h2 : n < 100) :
    natCharsW n = [digitChar (n / 10), digitChar (n % 10)] := by
  rw [natCharsW, if_neg (by omega), natCharsW_of_lt_ten (by omega)]
  rfl

theorem pad2_eq {n : Nat} (h : n < 100) :
    pad2 n = [digitChar (n / 10), digitChar (n % 10)] := by
  by_cases hn : n < 10
  · rw [pad2, if_pos hn, natChars_eq_W, natCharsW_of_lt_ten hn]
    have h10 : n / 10 = 0 := by omega
    have hm : n % 10 = n := by omega
    rw [h10, hm]
    rfl
  · rw [pad2, if_neg hn, natChars_eq_W, natCharsW_of_two_digits (by omega) h]

/-! ### Round trip of the `%d-%m-%Y` format through its own output -/

theorem parse2Dig_pad2 {n : Nat} (h : n < 100) (rest : List Char) :
    parse2Dig (pad2 n ++ rest) = some (n, rest) := by
  rw [pad2_eq h]
  have h1 := digitChar_isDigit (show n / 10 < 10 by omega)
  have h2 := digitChar_isDigit (Nat.mod_lt n (by omega))
  have v1 := dVal_digitChar (show n / 10 < 10 by omega)
  have v2 := dVal_digitChar (Nat.mod_lt n (by omega))
  simp [parse2Dig, h1, h2, v1, v2]
  omega

theorem isDigit_ne_dash {c : Char} (h : c.isDigit = true) : c ≠ '-' := by
  intro hc
  subst hc
  simp at h

theorem digitsToNat_replicate_zero (k : Nat) (l : List Char) :
    digitsToNat (List.replicate k '0' ++ l) = digitsToNat l := by
  induction k with
  | zero => rfl
  | succ k ih =>
    have : dVal '0' = 0 := by decide
    simpa [List.replicate_succ, digitsToNat, this] using ih

theorem parseNatEnd_of_digits {cs : List Char} (hne : cs ≠ [])
    (hd : ∀ c ∈ cs, c.isDigit = true) :
    parseNatEnd cs = some (digitsToNat cs) := by
  rw [parseNatEnd, if_pos]
  exact ⟨hne, by simpa [List.all_eq_true] using hd⟩

theorem pad4Year_digits (y : Int) (c : Char)
    (hc : c ∈ List.replicate (4 - (natChars y.natAbs).length) '0' ++
      natChars y.natAbs) : c.isDigit = true := by
  rcases List.mem_append.mp hc with hc | hc
  · rw [List.eq_of_mem_replicate hc]
    decide
  · rw [natChars_eq_W] at hc
    exact natCharsW_all_digits _ c hc

theorem digitsToNat_padded (a : Nat) :
    digitsToNat (List.replicate (4 - (natChars a).length) '0' ++ natChars a)
      = a := by
  rw [digitsToNat_replicate_zero, natChars_eq_W, digitsToNat_natCharsW]

theorem parseYearEnd_pad4Year (y : Int) : parseYearEnd (pad4Year y) = some y := by
  have hpadne : List.replicate (4 - (natChars y.natAbs).length) '0' ++
      natChars y.natAbs ≠ [] := by
    intro h
    rcases List.append_eq_nil.mp h with ⟨-, h2⟩
    rw [natChars_eq_W] at h2
    exact natCharsW_ne_nil _ h2
  by_cases hy : y < 0
  · rw [pad4Year]
    simp only [if_pos hy]
    rw [List.singleton_append, parseYearEnd, if_pos rfl,
      parseNatEnd_of_digits hpadne (pad4Year_digits y), digitsToNat_padded]
    simp only [Option.map_some']
    congr 1
    omega
  · rw [pad4Year]
    simp only [if_neg hy, List.nil_append]
    obtain ⟨c, cs, hcs⟩ : ∃ c cs,
        List.replicate (4 - (natChars y.natAbs).length) '0' ++
          natChars y.natAbs = c :: cs := by
      cases h : List.replicate (4 - (natChars y.natAbs).length) '0' ++
          natChars y.natAbs with
      | nil => exact absurd h hpadne
      | cons c cs => exact ⟨c, cs, rfl⟩
    have hcdig : c.isDigit = true := by
      apply pad4Year_digits y
      rw [hcs]
      exact List.mem_cons_self c cs
    rw [hcs, parseYearEnd, if_neg (by simpa using isDigit_ne_dash hcdig), ← hcs,
      parseNatEnd_of_digits hpadne (pad4Year_digits y), digitsToNat_padded]
    simp only [Option.map_some']
    congr 1
    omega

theorem daysInMonth_le_31 (y : Int) (m : Nat) : daysInMonth y m ≤ 31 := by
  rw [daysInMonth]
  split_ifs <;> omega

theorem parseDateDMY_formatDMY {d : Date} (h : dateValid d = true) :
    parseDateDMY (formatDMY d) = some d := by
  obtain ⟨⟨⟨h1, h2⟩, h3⟩, h4⟩ :
      ((1 ≤ d.month ∧ d.month ≤ 12) ∧ 1 ≤ d.day) ∧
        d.day ≤ daysInMonth d.year d.month := by
    simpa [dateValid] using h
  have h31 := daysInMonth_le_31 d.year d.month
  have hday : d.day < 100 := by omega
  have hmonth : d.month < 100 := by omega
  have hdata : (formatDMY d).data =
      pad2 d.day ++ '-' :: pad2 d.month ++ '-' :: pad4Year d.year := rfl
  have heta : (⟨d.year, d.month, d.day⟩ : Date) = d := rfl
  simp only [parseDateDMY, hdata, List.append_assoc, List.cons_append,
    parse2Dig_pad2 hday, parse2Dig_pad2 hmonth, parseYearEnd_pad4Year, heta]
  simp [h]

/-! ### Dates reachable through the program's entry points always parse -/

theorem parseDateDMY_valid {s : String} {d : Date}
    (h : parseDateDMY s = some d) : dateValid d = true := by
  rw [parseDateDMY] at h
  repeat' split at h
  all_goals simp_all
  obtain ⟨h1, h2⟩ := h
  rw [← h2]
  exact h1

theorem format_date_parses {today : Date} {s ds : String}
    (hv : dateValid today = true) (h : format_date today s = some ds) :
    (parseDateDMY ds).isSome = true := by
  rw [format_date] at h
  split_ifs at h with hs
  · cases h
    rw [parseDateDMY_formatDMY hv]
    rfl
  · split at h
    · cases h
      next d' hd' =>
        rw [parseDateDMY_formatDMY (parseDateDMY_valid hd')]
        rfl
    · cases h

theorem mem_add_job {db : List Job} {t dsc dt : String} {j : Job}
    (hj : j ∈ add_job db t dsc dt) :
    j ∈ db ∨ j = ⟨nextId db, t, dsc, dt⟩ := by
  simpa [add_job] using hj

theorem runSysFrom_dates (tr : List (Date × SysOp)) :
    ∀ db0 db, (∀ p ∈ tr, dateValid p.1 = true) →
      (∀ j ∈ db0, (parseDateDMY j.date).isSome = true) →
      runSysFrom db0 tr = some db →
      ∀ j ∈ db, (parseDateDMY j.date).isSome = true := by
  induction tr with
  | nil =>
    intro db0 db _ h0 hrun
    cases hrun
    exact h0
  | cons p rest ih =>
    obtain ⟨td, op⟩ := p
    intro db0 db htr h0 hrun
    rw [runSysFrom] at hrun
    cases hstep : stepSys td db0 op with
    | none => rw [hstep] at hrun; cases hrun
    | some db1 =>
      rw [hstep] at hrun
      have htd : dateValid td = true :=
        htr (td, op) (List.mem_cons_self _ _)
      have htr' : ∀ p ∈ rest, dateValid p.1 = true :=
        fun p hp => htr p (List.mem_cons_of_mem _ hp)
      refine ih db1 db htr' ?_ hrun
      cases op with
      | cliAdd t dsc dt =>
        cases dt with
        | none =>
          rw [stepSys] at hstep
          cases hstep
          intro j hj
          rcases mem_add_job hj with hj | hj
          · exact h0 j hj
          · rw [hj]
            show (parseDateDMY (formatDMY td)).isSome = true
            rw [parseDateDMY_formatDMY htd]
            rfl
        | some s =>
          rw [stepSys] at hstep
          cases hds : format_date td s with
          | none => rw [hds] at hstep; cases hstep
          | some ds =>
            rw [hds] at hstep
            cases hstep
            intro j hj
            rcases mem_add_job hj with hj | hj
            · exact h0 j hj
            · rw [hj]
              exact format_date_parses htd hds
      | webCreate t dsc =>
        rw [stepSys] at hstep
        cases hstep
        intro j hj
        rcases mem_add_job hj with hj | hj
        · exact h0 j hj
        · rw [hj]
          show (parseDateDMY (formatDMY td)).isSome = true
          rw [parseDateDMY_formatDMY htd]
          rfl
      | webDelete i =>
        rw [stepSys] at hstep
        cases hstep
        intro j hj
        exact h0 j (List.mem_of_mem_filter hj)

theorem renderDates_isSome {db : List Job}
    (h : ∀ j ∈ db, (parseDateDMY j.date).isSome = true) :
    (renderDates db).isSome = true := by
  induction db with
  | nil => rfl
  | cons j js ih =>
    obtain ⟨d, hd⟩ := Option.isSome_iff_exists.mp (h j (List.mem_cons_self j js))
    obtain ⟨ds, hds⟩ := Option.isSome_iff_exists.mp
      (ih (fun j' hj' => h j' (List.mem_cons_of_mem j hj')))
    rw [renderDates, hd, hds]
    rfl

/-! ### The JSON exporter's output re-read by `readJobsJson` -/

theorem strMk_data (s : String) : String.mk s.data = s := rfl

theorem expectChars_append (lit rest : List Char) :
    expectChars lit (lit ++ rest) = some rest := by
  induction lit with
  | nil => rfl
  | cons c cs ih => simp [expectChars, ih]

theorem takeWhile_append_all {p : Char → Bool} {l1 : List Char}
    (h : ∀ a ∈ l1, p a = true) (l2 : List Char) :
    (l1 ++ l2).takeWhile p = l1 ++ l2.takeWhile p := by
  induction l1 with
  | nil => rfl
  | cons a l1 ih =>
    rw [List.cons_append, List.takeWhile_cons,
      h a (List.mem_cons_self a l1)]
    simp [ih (fun b hb => h b (List.mem_cons_of_mem a hb))]

theorem dropWhile_append_all {p : Char → Bool} {l1 : List Char}
    (h : ∀ a ∈ l1, p a = true) (l2 : List Char) :
    (l1 ++ l2).dropWhile p = l2.dropWhile p := by
  induction l1 with
  | nil => rfl
  | cons a l1 ih =>
    rw [List.cons_append, List.dropWhile_cons,
      h a (List.mem_cons_self a l1)]
    simp only [if_pos]
    exact ih (fun b hb => h b (List.mem_cons_of_mem a hb))

theorem dropWhile_eq_self_of_takeWhile_nil {p : Char → Bool} {l : List Char}
    (h : l.takeWhile p = []) : l.dropWhile p = l := by
  cases l with
  | nil => rfl
  | cons c cs =>
    rw [List.takeWhile_cons] at h
    rw [List.dropWhile_cons]
    cases hp : p c with
    | false => simp
    | true => rw [hp] at h; simp at h

theorem natChars_all_digits (n : Nat) : ∀ c ∈ natChars n, c.isDigit = true := by
  rw [natChars_eq_W]
  exact natCharsW_all_digits n

theorem natChars_ne_nil (n : Nat) : natChars n ≠ [] := by
  rw [natChars_eq_W]
  exact natCharsW_ne_nil n

theorem digitsToNat_natChars (n : Nat) : digitsToNat (natChars n) = n := by
  rw [natChars_eq_W]
  exact digitsToNat_natCharsW n

theorem readNat_natChars_append (n : Nat) (l : List Char)
    (h : l.takeWhile Char.isDigit = []) :
    readNat (natChars n ++ l) = some (n, l) := by
  rw [readNat]
  simp only [takeWhile_append_all (natChars_all_digits n) l, h,
    List.append_nil, dropWhile_append_all (natChars_all_digits n) l,
    dropWhile_eq_self_of_takeWhile_nil h,
    if_neg (natChars_ne_nil n), digitsToNat_natChars]

theorem parseStrGo_safe (s : List Char) :
    ∀ (rest : List Char) (fuel : Nat),
      (∀ c ∈ s, jsonSafeChar c = true) → s.length < fuel →
      parseStrGo fuel (s ++ '"' :: rest) = some (s, rest) := by
  induction s with
  | nil =>
    intro rest fuel _ hf
    cases fuel with
    | zero => omega
    | succ f => simp [parseStrGo]
  | cons c s ih =>
    intro rest fuel hsafe hf
    cases fuel with
    | zero => omega
    | succ f =>
      obtain ⟨⟨hc1, hc2⟩, hc3⟩ : (¬c = '"' ∧ ¬c = '\\') ∧ 32 ≤ c.toNat := by
        simpa [jsonSafeChar] using hsafe c (List.mem_cons_self c s)
      rw [List.cons_append, parseStrGo.eq_def]
      simp only [if_neg hc1, if_neg hc2, if_neg (show ¬c.toNat < 32 by omega)]
      rw [ih rest f (fun b hb => hsafe b (List.mem_cons_of_mem c hb))
          (by simp at hf ⊢; omega)]
      rfl

theorem parseStrBody_safe (s rest : List Char)
    (h : ∀ c ∈ s, jsonSafeChar c = true) :
    parseStrBody (s ++ '"' :: rest) = some (s, rest) := by
  rw [parseStrBody]
  exact parseStrGo_safe s rest _ h (by simp; omega)

theorem readNat_natChars_cons (n : Nat) (c : Char) (l : List Char)
    (hc : c.isDigit = false) :
    readNat (natChars n ++ c :: l) = some (n, c :: l) :=
  readNat_natChars_append n (c :: l)
    (List.takeWhile_cons_of_neg (by simp [hc]))

theorem readJobObj_jobLine (j : Job) (rest : List Char)
    (ht : ∀ c ∈ j.title.data, jsonSafeChar c = true)
    (hd : ∀ c ∈ j.description.data, jsonSafeChar c = true)
    (hdt : ∀ c ∈ j.date.data, jsonSafeChar c = true) :
    readJobObj (jobLine j ++ rest) = some (j, rest) := by
  obtain ⟨i, t, d, dt⟩ := j
  have d1 : ("\x7b\"id\": " : String).data =
      '\x7b' :: '\"' :: 'i' :: 'd' :: '\"' :: ':' :: ' ' :: [] := rfl
  have d2 : (", \"title\": \"" : String).data =
      ',' :: ' ' :: '\"' :: 't' :: 'i' :: 't' :: 'l' :: 'e' :: '\"' :: ':' ::
        ' ' :: '\"' :: [] := rfl
  have d3 : ("\", \"description\": \"" : String).data =
      '\"' :: ',' :: ' ' :: '\"' :: 'd' :: 'e' :: 's' :: 'c' :: 'r' :: 'i' ::
        'p' :: 't' :: 'i' :: 'o' :: 'n' :: '\"' :: ':' :: ' ' :: '\"' :: [] :=
    rfl
  have d4 : ("\", \"date\": \"" : String).data =
      '\"' :: ',' :: ' ' :: '\"' :: 'd' :: 'a' :: 't' :: 'e' :: '\"' :: ':' ::
        ' ' :: '\"' :: [] := rfl
  have d5 : ("\"\x7d" : String).data = '\"' :: '\x7d' :: [] := rfl
  have rn := fun (X : List Char) => readNat_natChars_cons i ',' X (by decide)
  have pt := fun (X : List Char) => parseStrBody_safe t.data X ht
  have pd := fun (X : List Char) => parseStrBody_safe d.data X hd
  have pdt := fun (X : List Char) => parseStrBody_safe dt.data X hdt
  simp only [readJobObj, jobLine, d1, d2, d3, d4, d5, List.cons_append,
    List.nil_append, List.append_assoc, List.append_eq, expectChars,
    reduceIte, Option.bind_eq_bind, Option.some_bind, rn, pt, pd, pdt,
    strMk_data]

theorem jsonBodyLines_restInput (j : Job) (js : List Job) :
    jsonBodyLines (j :: js) ++ ']' :: '\n' :: [] = jobLine j ++ restInput js := by
  induction js generalizing j with
  | nil => simp [jsonBodyLines, restInput]
  | cons k ks ih =>
    rw [jsonBodyLines, restInput, List.append_assoc, List.cons_append,
      List.cons_append, ih k]
    simp

theorem length_le_restInput (js : List Job) :
    js.length ≤ (restInput js).length := by
  induction js with
  | nil => simp [restInput]
  | cons j js ih => simp [restInput]; omega

theorem readJobsRest_restInput (js : List Job) :
    ∀ fuel, js.length < fuel →
      (∀ j ∈ js, (∀ c ∈ j.title.data, jsonSafeChar c = true) ∧
        (∀ c ∈ j.description.data, jsonSafeChar c = true) ∧
        (∀ c ∈ j.date.data, jsonSafeChar c = true)) →
      readJobsRest fuel (restInput js) = some js := by
  induction js with
  | nil =>
    intro fuel hf _
    cases fuel with
    | zero => omega
    | succ f => simp [readJobsRest, restInput, expectChars]
  | cons j js ih =>
    intro fuel hf hsafe
    cases fuel with
    | zero => omega
    | succ f =>
      have hj := hsafe j (List.mem_cons_self j js)
      have hjs := fun k hk => hsafe k (List.mem_cons_of_mem j hk)
      have hcomma : expectChars (',' :: '\n' :: []) (restInput (j :: js)) =
          some (jobLine j ++ restInput js) := by
        simp [restInput, expectChars]
      simp only [readJobsRest, hcomma,
        readJobObj_jobLine j _ hj.1 hj.2.1 hj.2.2,
        ih f (by simp at hf ⊢; omega) hjs, Option.bind_eq_bind,
        Option.some_bind]

theorem expectChars_close_jobLine (L X : List Char) (j : Job) :
    expectChars (']' :: L) (jobLine j ++ X) = none := by
  have d1 : ("\x7b\"id\": " : String).data =
      '\x7b' :: '\"' :: 'i' :: 'd' :: '\"' :: ':' :: ' ' :: [] := rfl
  simp [jobLine, d1, expectChars]

theorem jobJsonSafe_split {j : Job} (h : jobJsonSafe j = true) :
    (∀ c ∈ j.title.data, jsonSafeChar c = true) ∧
      (∀ c ∈ j.description.data, jsonSafeChar c = true) ∧
      (∀ c ∈ j.date.data, jsonSafeChar c = true) := by
  have h' : jsonSafeStr j.title = true ∧ jsonSafeStr j.description = true ∧
      jsonSafeStr j.date = true := by
    simpa [jobJsonSafe, Bool.and_eq_true, and_assoc] using h
  refine ⟨?_, ?_, ?_⟩ <;>
    simp only [jsonSafeStr, List.all_eq_true] at h' <;> tauto

theorem readJobsJson_export (js : List Job)
    (h : ∀ j ∈ js, jobJsonSafe j = true) :
    readJobsJson (export_json_bytes js) = some js := by
  cases js with
  | nil => decide
  | cons j js =>
    have hj := jobJsonSafe_split (h j (List.mem_cons_self j js))
    have hjs := fun k hk => jobJsonSafe_split (h k (List.mem_cons_of_mem j hk))
    have hopen : ("[\n" : String).data = '[' :: '\n' :: [] := rfl
    have hclosel : ("]\n" : String).data = ']' :: '\n' :: [] := rfl
    have hbody : export_json_bytes (j :: js) =
        '[' :: '\n' :: (jobLine j ++ restInput js) := by
      rw [export_json_bytes, hopen]
      rw [List.append_assoc, List.cons_append, List.cons_append,
        List.nil_append]
      have : ("]\n" : String).data = ']' :: '\n' :: [] := rfl
      rw [this, jsonBodyLines_restInput j js]
    have hfuel : js.length < (restInput js).length + 1 := by
      have := length_le_restInput js
      omega
    have hexp : expectChars (("[\n" : String).data)
        ('[' :: '\n' :: (jobLine j ++ restInput js)) =
        some (jobLine j ++ restInput js) := by
      rw [hopen]
      simp [expectChars]
    simp only [readJobsJson, hbody, hexp, expectChars_close_jobLine _ _ j,
      readJobObj_jobLine j _ hj.1 hj.2.1 hj.2.2,
      readJobsRest_restInput js _ hfuel hjs, Option.bind_eq_bind,
      Option.some_bind]

/-! ### Rowid assignment: live ids stay strictly increasing -/

theorem foldlMax_init_le (db : List Job) :
    ∀ a : Nat, a ≤ db.foldl (fun m j => max m j.id) a := by
  induction db with
  | nil => intro a; exact le_refl a
  | cons j t ih =>
    intro a
    rw [List.foldl_cons]
    exact le_trans (le_max_left a j.id) (ih (max a j.id))

theorem mem_le_foldlMax {j : Job} (db : List Job) :
    ∀ a : Nat, j ∈ db → j.id ≤ db.foldl (fun m k => max m k.id) a := by
  induction db with
  | nil => intro a h; cases h
  | cons k t ih =>
    intro a h
    rw [List.foldl_cons]
    rcases List.mem_cons.mp h with h | h
    · rw [h]
      exact le_trans (le_max_right a k.id) (foldlMax_init_le t _)
    · exact ih _ h

theorem mem_id_lt_nextId {db : List Job} {j : Job} (h : j ∈ db) :
    j.id < nextId db := by
  have := mem_le_foldlMax db 0 h
  rw [nextId]
  omega

theorem idsSorted_add_job {db : List Job}
    (h : (db.map Job.id).Pairwise (· < ·)) (t d dt : String) :
    ((add_job db t d dt).map Job.id).Pairwise (· < ·) := by
  rw [add_job, List.map_append, List.pairwise_append]
  refine ⟨h, by simp, ?_⟩
  intro a ha b hb
  simp only [List.map_cons, List.map_nil, List.mem_singleton] at hb
  subst hb
  obtain ⟨j, hj, rfl⟩ := List.mem_map.mp ha
  exact mem_id_lt_nextId hj

theorem idsSorted_remove_job {db : List Job}
    (h : (db.map Job.id).Pairwise (· < ·)) (i : Nat) :
    ((remove_job db i).map Job.id).Pairwise (· < ·) :=
  h.sublist ((List.filter_sublist db).map Job.id)

theorem runStoreFrom_ids (ops : List StoreOp) :
    ∀ db, (db.map Job.id).Pairwise (· < ·) →
      ((runStoreFrom db ops).map Job.id).Pairwise (· < ·) := by
  induction ops with
  | nil => intro db h; exact h
  | cons op rest ih =>
    intro db h
    cases op with
    | add t d dt => exact ih _ (idsSorted_add_job h t d dt)
    | remove i => exact ih _ (idsSorted_remove_job h i)

/-! ### The claims -/

/-- C1: the title filter is interpolated into the query text
(`format!("title LIKE '%{}%'", title)`, `db.rs` line 133), so filter values
act as `LIKE` syntax, not as data. Evaluated at the failing input: with the
store holding one job titled `abc` and the title filter `%`, the built query
is `... WHERE title LIKE '%%%' ...`, and the search returns the `abc` record
even though `abc` does not contain `%` as a substring — contradicting the
claim that exactly the records whose title contains the filter are
returned. -/
theorem c1_title_filter_injection :
    searchQueryStr (some "%") none none =
      "SELECT id, title, description, date FROM jobs WHERE title LIKE '%%%' ORDER BY date ASC" ∧
      seach_jobs [⟨1, "abc", "x", "01-01-2020"⟩] (some "%") none none =
        [⟨1, "abc", "x", "01-01-2020"⟩] ∧
      containsSub "abc" "%" = false := by
  refine ⟨by rfl, by decide, by decide⟩

/-- C2, counterexample: the `POST /delete/{id}` response
(`main.rs` line 214) is `HTTP/1.1 303 See Other\r\nLocation: /\r\n\r\n`; its
header block contains neither a `Content-Type` nor a `Content-Length` header,
so the claim that every response written by the handler carries both headers
is false at this route. -/
theorem c2_delete_response_counterexample :
    responseWellFormedB (responseBytes WrittenResponse.deleteJob).data =
      false := by
  decide

/-- C2, amended: every response written by `handle_request` except the
`POST /delete/{id}` redirect is exactly HTTP/1.1-framed with a `Content-Type`
header and a `Content-Length` header whose value is the UTF-8 byte length of
the body (Rust's `len()` on the body), CRLF-separated headers, and a blank
line before the body; the delete redirect alone carries neither header. -/
theorem c2_response_framing_amended (r : WrittenResponse)
    (h : r ≠ WrittenResponse.deleteJob) :
    ∃ status ct, responseBytes r = framedResponse status ct (responseBody r) := by
  cases r with
  | index content => exact ⟨"HTTP/1.1 200 OK", "text/html", rfl⟩
  | styles content => exact ⟨"HTTP/1.1 200 OK", "text/css", rfl⟩
  | createPage content => exact ⟨"HTTP/1.1 200 OK", "text/html", rfl⟩
  | createJob => exact ⟨"HTTP/1.1 200 OK", "text/plain", rfl⟩
  | deleteJob => exact absurd rfl h
  | exportOk fmt buf => exact ⟨"HTTP/1.1 200 OK", contentTypeOf fmt, rfl⟩
  | exportBadFormat => exact ⟨"HTTP/1.1 400 Bad Request", "text/text", rfl⟩
  | notFound => exact ⟨"HTTP/1.1 404 Not Found", "text/text", rfl⟩

/-- C2, witness: the amended framing theorem applied to the 404 response. -/
theorem c2_response_framing_witness :
    ∃ status ct, responseBytes WrittenResponse.notFound =
      framedResponse status ct (responseBody WrittenResponse.notFound) :=
  c2_response_framing_amended WrittenResponse.notFound (by decide)

/-- C3: a `Content-Length` header whose value is not a valid non-negative
integer is not logged and skipped — the `.parse::<usize>().unwrap()` at
`main.rs` line 122 panics, aborting the handling of the connection (modelled
as `none`). Read errors, by contrast, are skipped, other headers are
collected, and the blank line ends the block, as the second conjunct shows. -/
theorem c3_content_length_panic :
    parseHeaderBlock [LineRead.ok "Content-Length: abc"] = none ∧
      parseHeaderBlock [LineRead.ok "Host: x", LineRead.err,
          LineRead.ok "Content-Length: 12", LineRead.ok "", LineRead.ok "junk"] =
        some (["Host: x", "Content-Length: 12"], 12) := by
  exact ⟨by decide, by decide⟩

/-- C4: a `POST /create_job` body that is empty JSON (missing `title`) or not
JSON at all makes the handler panic at `serde_json::from_str(..).unwrap()` or
`.get("title").unwrap()` (`main.rs` lines 191–194) without writing any
response (modelled as `none`) — it does not render an error response. A valid
body, by contrast, inserts the job dated today and answers the fixed
confirmation. -/
theorem c4_create_job_panic :
    handle_create_job ⟨2026, 10, 12⟩ [] "\x7b\x7d" = none ∧
      handle_create_job ⟨2026, 10, 12⟩ [] "not json" = none ∧
      handle_create_job ⟨2026, 10, 12⟩ []
          "\x7b\"title\": \"a\", \"description\": \"b\"\x7d" =
        some ([⟨1, "a", "b", "12-10-2026"⟩], WrittenResponse.createJob) := by
  refine ⟨by decide, by decide, by decide⟩

/-- C5, counterexample: `ORDER BY date ASC` sorts the TEXT column, i.e. the
raw `dd-mm-yyyy` strings bytewise, not calendar dates. With records dated
`02-01-2025` (2 January) and `01-02-2025` (1 February) the search output is
not sorted ascending by calendar date: the February record comes first
because its string is bytewise smaller. -/
theorem c5_calendar_order_counterexample :
    seach_jobs [⟨1, "A", "a", "02-01-2025"⟩, ⟨2, "B", "b", "01-02-2025"⟩]
        none none none =
      [⟨2, "B", "b", "01-02-2025"⟩, ⟨1, "A", "a", "02-01-2025"⟩] ∧
      ¬ List.Sorted (fun a b => calJobLeB a b = true)
        (seach_jobs [⟨1, "A", "a", "02-01-2025"⟩, ⟨2, "B", "b", "01-02-2025"⟩]
          none none none) := by
  exact ⟨by decide, by decide⟩

/-- C5, amended: for every store state and filter combination the search
result is sorted ascending by the raw date string under bytewise (memcmp)
comparison — calendar order only where the two coincide — with insertion
(rowid) order breaking ties: filtering the output to any fixed date value
yields exactly the matching rows in store order. Determinism holds because
`seach_jobs` is a function of the store and the filters. -/
theorem c5_lexical_order_amended (db : List Job) (t d dt : Option String) :
    List.Sorted dateLe (seach_jobs db t d dt) ∧
      ∀ v : String,
        (seach_jobs db t d dt).filter (fun j => j.date = v) =
          (db.filter (fun j => (searchConds t d dt).all (evalCond j))).filter
            (fun j => j.date = v) := by
  constructor
  · haveI : IsTotal Job dateLe :=
      ⟨fun a b => strBytesLe_total a.date.data b.date.data⟩
    haveI : IsTrans Job dateLe :=
      ⟨fun _ _ _ h h' => strBytesLe_trans h h'⟩
    exact List.sorted_insertionSort dateLe _
  · intro v
    rw [seach_jobs]
    apply filter_insertionSort
    intro a b ha hb
    have ha' : a.date = v := by simpa using ha
    have hb' : b.date = v := by simpa using hb
    rw [dateLe, ha', hb']
    exact strBytesLe_refl v.data

/-- C6: a nonempty date filter that does not parse under `%d-%m-%Y` is
dropped: the built query text equals the query with no date filter (so the
other filters still apply and the search behaves exactly as if the date
filter were absent), the diagnostic is printed, and no failure occurs. -/
theorem c6_invalid_date_filter_dropped (db : List Job) (t d : Option String)
    (s : String) (hne : s ≠ "") (hp : parseDateDMY s = none) :
    searchQueryStr t d (some s) = searchQueryStr t d none ∧
      seach_jobs db t d (some s) = seach_jobs db t d none ∧
      searchDiags (some s) =
        ["Invalid date format. Please use the format dd-mm-yyyy."] := by
  have hc : dateCondArg (some s) = dateCondArg none := by
    simp [dateCondArg, hne, hp]
  have hconds : searchConds t d (some s) = searchConds t d none := by
    unfold searchConds
    rw [hc]
  exact ⟨by rw [searchQueryStr, searchQueryStr, hconds],
    by rw [seach_jobs, seach_jobs, hconds],
    by simp [searchDiags, hne, hp]⟩

/-- C6, witness: the theorem at the invalid calendar date `31-02-2024` with a
title filter present. -/
theorem c6_invalid_date_filter_dropped_witness :
    ("31-02-2024" ≠ "" ∧ parseDateDMY "31-02-2024" = none) ∧
      searchQueryStr (some "Eng") none (some "31-02-2024") =
        searchQueryStr (some "Eng") none none ∧
      seach_jobs [] (some "Eng") none (some "31-02-2024") =
        seach_jobs [] (some "Eng") none none ∧
      searchDiags (some "31-02-2024") =
        ["Invalid date format. Please use the format dd-mm-yyyy."] :=
  ⟨⟨by decide, by decide⟩,
    c6_invalid_date_filter_dropped [] (some "Eng") none "31-02-2024"
      (by decide) (by decide)⟩

/-- C7, counterexample: `jobs(id INTEGER PRIMARY KEY, ...)` has no
`AUTOINCREMENT`, so SQLite assigns one more than the largest rowid in use.
After `add; add; remove 2`, the id `2` was assigned, then deleted, and the
next `add` receives id `2` again — ids are reused after deletion. -/
theorem c7_id_reuse_counterexample :
    (∃ j ∈ runStore [StoreOp.add "A" "a" "d1", StoreOp.add "B" "b" "d2"],
        j.id = 2) ∧
      (∀ j ∈ runStore [StoreOp.add "A" "a" "d1", StoreOp.add "B" "b" "d2",
          StoreOp.remove 2], j.id ≠ 2) ∧
      ∃ j ∈ runStore [StoreOp.add "A" "a" "d1", StoreOp.add "B" "b" "d2",
          StoreOp.remove 2, StoreOp.add "C" "c" "d3"], j.id = 2 := by
  refine ⟨by decide, by decide, by decide⟩

/-- C7, amended: across every sequence of add and remove operations, the live
ids are strictly increasing in row order (hence unique: an id is never reused
while a record carrying it exists), and a newly assigned id — one more than
the largest live id — exceeds every live id; an id of a deleted record can be
reassigned only after every record with an id at least as large is gone. -/
theorem c7_live_ids_unique_amended (ops : List StoreOp) :
    ((runStore ops).map Job.id).Pairwise (· < ·) ∧
      ∀ j ∈ runStore ops, j.id < nextId (runStore ops) :=
  ⟨runStoreFrom_ids ops [] (by simp),
    fun _ hj => mem_id_lt_nextId hj⟩

/-- C8: `DELETE FROM jobs WHERE id = ?` with a bound parameter: removing an
id absent from the store leaves the store exactly unchanged and does not
fail, and after `remove_job id` no listed record carries that id. -/
theorem c8_remove_noop_and_frame (db : List Job) (i : Nat) :
    ((∀ j ∈ db, j.id ≠ i) → remove_job db i = db) ∧
      ∀ j ∈ list_jobs (remove_job db i), j.id ≠ i := by
  constructor
  · intro h
    rw [remove_job]
    apply List.filter_eq_self.mpr
    intro j hj
    simpa using h j hj
  · intro j hj
    have := List.mem_filter.mp hj
    simpa using this.2

/-- C8, witness: removing the absent id 99 from a two-record store. -/
theorem c8_remove_noop_and_frame_witness :
    remove_job [⟨1, "A", "a", "d1"⟩, ⟨2, "B", "b", "d2"⟩] 99 =
        [⟨1, "A", "a", "d1"⟩, ⟨2, "B", "b", "d2"⟩] ∧
      ∀ j ∈ list_jobs (remove_job [⟨1, "A", "a", "d1"⟩,
          ⟨2, "B", "b", "d2"⟩] 99), j.id ≠ 99 :=
  ⟨(c8_remove_noop_and_frame [⟨1, "A", "a", "d1"⟩, ⟨2, "B", "b", "d2"⟩] 99).1
      (by decide),
    (c8_remove_noop_and_frame [⟨1, "A", "a", "d1"⟩, ⟨2, "B", "b", "d2"⟩] 99).2⟩

/-- C9, counterexample: the exporter splices field strings into the JSON
text unescaped (`main.rs` lines 347–350). For a record titled `a"b` the
output line reads `..., "title": "a"b", ...`, which no JSON reader accepts:
`readJobsJson` — which implements the RFC 8259 string-literal and integer
grammar over exactly the exporter's array layout — rejects it, refuting the
claim that the export is valid JSON for every record list. -/
theorem c9_quote_title_counterexample :
    readJobsJson (export_json_bytes [⟨1, "a\"b", "d", "01-01-2020"⟩]) =
      none := by
  decide

/-- C9, amended: for every record list (including the empty list) whose
title, description and date contain no double quote, no backslash and no
control character, the JSON export is a valid JSON array of objects with keys
`id`, `title`, `description`, `date`, decoded back to exactly the exported
records in list order: `readJobsJson` accepts precisely the array layout the
exporter emits — `[`, one object per line, a comma after every line but the
last, and the closing `]` — with JSON string-literal and integer syntax for
the fields, so acceptance also certifies the one-object-per-line layout and
the absence of a trailing comma. -/
theorem c9_json_export_amended (js : List Job)
    (h : ∀ j ∈ js, jobJsonSafe j = true) :
    readJobsJson (export_json_bytes js) = some js :=
  readJobsJson_export js h

/-- C9, witness: the amended theorem at a concrete two-record store, with the
safety hypothesis discharged by evaluation. -/
theorem c9_json_export_witness :
    (∀ j ∈ [(⟨1, "t", "d", "01-01-2020"⟩ : Job), ⟨2, "u", "e", "02-01-2020"⟩],
        jobJsonSafe j = true) ∧
      readJobsJson (export_json_bytes
          [⟨1, "t", "d", "01-01-2020"⟩, ⟨2, "u", "e", "02-01-2020"⟩]) =
        some [⟨1, "t", "d", "01-01-2020"⟩, ⟨2, "u", "e", "02-01-2020"⟩] :=
  ⟨by decide, c9_json_export_amended _ (by decide)⟩

/-- C10: every record inserted through the program's own entry points — the
CLI `add` (which canonicalizes or rejects dates via `format_date`) and
`POST /create_job` (which always stores `format_date("today")`) — has a date
string that parses under `%d-%m-%Y`; consequently the unguarded
`parse_from_str(..).unwrap()` in the `GET /` renderer never fails on a store
populated only through these operations (and deletions). -/
theorem c10_entry_point_dates_parse (tr : List (Date × SysOp)) (db : List Job)
    (hval : ∀ p ∈ tr, dateValid p.1 = true) (hrun : runSys tr = some db) :
    (∀ j ∈ list_jobs db, (parseDateDMY j.date).isSome = true) ∧
      (renderDates (list_jobs db)).isSome = true := by
  have h := runSysFrom_dates tr [] db hval (by simp) hrun
  exact ⟨h, renderDates_isSome h⟩

/-- C10, witness: a concrete trace through all three entry points (default
date, explicit date, web create, web delete). -/
theorem c10_entry_point_dates_parse_witness :
    (∀ j ∈ list_jobs [(⟨1, "t", "d", "12-10-2026"⟩ : Job),
        ⟨2, "u", "e", "05-03-2024"⟩, ⟨3, "v", "f", "13-10-2026"⟩],
      (parseDateDMY j.date).isSome = true) ∧
      (renderDates (list_jobs [(⟨1, "t", "d", "12-10-2026"⟩ : Job),
        ⟨2, "u", "e", "05-03-2024"⟩, ⟨3, "v", "f", "13-10-2026"⟩])).isSome =
        true :=
  c10_entry_point_dates_parse
    [(⟨2026, 10, 12⟩, SysOp.cliAdd "t" "d" none),
      (⟨2026, 10, 12⟩, SysOp.cliAdd "u" "e" (some "5-3-2024")),
      (⟨2026, 10, 13⟩, SysOp.webCreate "v" "f"),
      (⟨2026, 10, 13⟩, SysOp.webDelete 9)]
    _ (by decide) (by decide)
